import Mathlib

/-!
Verification of the process-wide coordination layer of byteps
(`src/byteps/common/global.cc`): the scheduled FIFO queues, the tensor
registry and partitioning scheme, the key-to-server encoding, and the
partition-bound configuration.  All definitions are shallow embeddings of
the corresponding C++ functions; machine integers are modelled as `Nat`
with explicit reduction modulo `2 ^ 32` where the source uses 32-bit
unsigned arithmetic.
-/

namespace BytePS

/-- `2 ^ 32`, the modulus of the source's 32-bit unsigned integers
(`unsigned int next_key_`, `uint32_t _partition_bound`). -/
def U32 : Nat := 2 ^ 32

/-- The tensor element types handled by `ConvertBoundToBytes`'s switch. -/
inductive DataType where
  | BYTEPS_UINT8
  | BYTEPS_INT8
  | BYTEPS_FLOAT16
  | BYTEPS_FLOAT32
  | BYTEPS_INT32
  | BYTEPS_FLOAT64
  | BYTEPS_INT64
  deriving DecidableEq, Repr

/-- Element width in bytes, exactly the `switch` in `ConvertBoundToBytes`. -/
def byte_per_param : DataType → Nat
  | .BYTEPS_UINT8 => 1
  | .BYTEPS_INT8 => 1
  | .BYTEPS_FLOAT16 => 2
  | .BYTEPS_FLOAT32 => 4
  | .BYTEPS_INT32 => 4
  | .BYTEPS_FLOAT64 => 8
  | .BYTEPS_INT64 => 8

/-- `ConvertBoundToBytes(dtype, bound)`: `bound *= byte_per_param` on a
`uint32_t&`, hence reduced modulo `2 ^ 32`. -/
def ConvertBoundToBytes (dtype : DataType) (bound : Nat) : Nat :=
  (bound * byte_per_param dtype) % U32

/-- Modelled from the spec: the per-tensor metadata record `BPSContext`
(declared in `global.h`, which is not part of the given sources) with the
three fields `global.cc` uses — the partition `key_list`, whether a pinned
staging buffer was allocated (`cpubuff`, modelled as a flag since pointer
identity is not observable here) and its length `buff_len`. -/
structure BPSContext where
  key_list : List Nat := []
  cpubuff : Bool := false
  buff_len : Nat := 0
  deriving DecidableEq, Repr

/-- Modelled from the spec: `CPU_DEVICE_ID` is declared in a header not in
the given sources; the code only compares `device` against it, so any fixed
value is faithful.  We use `-1`, the conventional CPU device id. -/
def CPU_DEVICE_ID : Int := -1

/-- The mutable fields of `BytePSGlobal` that registration touches:
`_name_to_cxt` (an association list mirroring the `unordered_map`, keyed by
tensor name, insertion at the tail), the process-wide key counter
`next_key_` (an `unsigned int`, kept `< 2 ^ 32`), and the `uint32_t`
`_partition_bound`. -/
structure GlobalState where
  name_to_cxt : List (String × BPSContext) := []
  next_key : Nat := 0
  partition_bound : Nat := 512000
  deriving DecidableEq, Repr

/-- The state right after the static initializers of `global.cc`:
empty registry, `next_key_ = 0`, `_partition_bound = 512000`. -/
def initState : GlobalState := {}

/-- Lookup in the registry association list (mirrors
`_name_to_cxt.find(name)`). -/
def ctxLookup : List (String × BPSContext) → String → Option BPSContext
  | [], _ => none
  | (n, c) :: rest, name => if n = name then some c else ctxLookup rest name

/-- One iteration's consumption in the partition loop:
`((size - accumulated) > _partition_bound) ? _partition_bound : (size - accumulated)`
with `remaining = size - accumulated`. -/
def chunkStep (bound remaining : Nat) : Nat :=
  if remaining > bound then bound else remaining

/-- The partition `while` loop of `IsTensorInitialized`, fuel-indexed so
that non-termination (a zero bound) is observable as `none`: each step
consumes `chunkStep bound remaining` bytes and records the chunk size.
With `fuel = size` the fuel is never the reason for `none`, since a
positive bound consumes at least one byte per iteration. -/
def partitionLoop (bound : Nat) : Nat → Nat → Option (List Nat)
  | _, 0 => some []
  | 0, _ + 1 => none
  | fuel + 1, r + 1 =>
      (partitionLoop bound fuel (r + 1 - chunkStep bound (r + 1))).map
        (fun l => chunkStep bound (r + 1) :: l)

/-- The partition bound actually used by a registration: the source calls
`ConvertBoundToBytes` (mutating `_partition_bound`) exactly when
`next_key_ == 0`. -/
def effBound (st : GlobalState) (dtype : DataType) : Nat :=
  if st.next_key = 0 then ConvertBoundToBytes dtype st.partition_bound
  else st.partition_bound

/-- The keys pushed by `n` evaluations of `(ps::Key) next_key_++` starting
from counter value `start` (each value reduced modulo `2 ^ 32`, as
`next_key_` is an `unsigned int`). -/
def keyRange (start n : Nat) : List Nat :=
  (List.range n).map (fun i => (start + i) % U32)

/-- Outcome of `IsTensorInitialized`: a failed `BPS_CHECK` aborts the
process (`fatal`), the partition loop may never terminate (`diverge`), or
the call returns a boolean and the updated global state. -/
inductive RegResult where
  | fatal
  | diverge
  | ok (already : Bool) (st : GlobalState)
  deriving DecidableEq, Repr

/-- `BytePSGlobal::IsTensorInitialized(name, size, device, dtype)`.
`size : Nat` models the `size_t` argument, so `BPS_CHECK_GT(size, 0)`
fails exactly when `size = 0`.  On a fresh name: convert the bound once
(`next_key_ == 0`), allocate the staging buffer for non-CPU devices, run
the partition loop pushing one key per chunk, insert the context. -/
def IsTensorInitialized (st : GlobalState) (name : String) (size : Nat)
    (device : Int) (dtype : DataType) : RegResult :=
  if size = 0 then .fatal
  else
    match ctxLookup st.name_to_cxt name with
    | some _ => .ok true st
    | none =>
      let bound := effBound st dtype
      match partitionLoop bound size size with
      | none => .diverge
      | some chunks =>
        let cxt : BPSContext :=
          if device = CPU_DEVICE_ID then
            { key_list := keyRange st.next_key chunks.length }
          else
            { key_list := keyRange st.next_key chunks.length
              cpubuff := true
              buff_len := size }
        .ok false
          { name_to_cxt := st.name_to_cxt ++ [(name, cxt)]
            next_key := (st.next_key + chunks.length) % U32
            partition_bound := bound }

/-- `BytePSGlobal::GetContextFromName(name)`: `_name_to_cxt[name]` —
`operator[]` default-constructs and inserts a `BPSContext` when the name
is absent. -/
def GetContextFromName (st : GlobalState) (name : String) :
    BPSContext × GlobalState :=
  match ctxLookup st.name_to_cxt name with
  | some c => (c, st)
  | none => ({}, { st with name_to_cxt := st.name_to_cxt ++ [(name, {})] })

/-- `BytePSGlobal::GetTensorCount()`: `_name_to_cxt.size()`. -/
def GetTensorCount (st : GlobalState) : Nat := st.name_to_cxt.length

/-! ### The scheduled FIFO queue -/

/-- `BytePSScheduledQueue`: `_sq` is the `std::deque` (head at the front),
`finished` the `reportFinish` counter.  The element type is abstract since
`TensorTableEntry` is opaque to the queue. -/
structure BytePSScheduledQueue (α : Type) where
  sq : List α := []
  finished : Nat := 0
  deriving DecidableEq, Repr

/-- The defined error the spec mandates for `getTask`/`peekTask` on an
empty queue. -/
inductive EmptyQueueError where
  | emptyQueue
  deriving DecidableEq, Repr

/-- `BytePSScheduledQueue::addTask`: `_sq.push_back(entry)`. -/
def addTask (q : BytePSScheduledQueue α) (e : α) : BytePSScheduledQueue α :=
  { q with sq := q.sq ++ [e] }

/-- `BytePSScheduledQueue::getTask`: `front()` then `pop_front()`.
Modelled from the spec: on an empty queue the source's `front()` is
undefined behavior, which the spec requires to be hardened into a defined,
catchable `EmptyQueueError`; the embedding returns that error value. -/
def getTask (q : BytePSScheduledQueue α) :
    Except EmptyQueueError (α × BytePSScheduledQueue α) :=
  match q.sq with
  | [] => .error .emptyQueue
  | e :: rest => .ok (e, { q with sq := rest })

/-- `BytePSScheduledQueue::peekTask`: `front()` without removal.
Modelled from the spec: the empty-queue case is the spec-mandated
`EmptyQueueError` in place of the source's undefined behavior. -/
def peekTask (q : BytePSScheduledQueue α) : Except EmptyQueueError α :=
  match q.sq with
  | [] => .error .emptyQueue
  | e :: _ => .ok e

/-- `BytePSScheduledQueue::pendingSize`: `_sq.size()`. -/
def pendingSize (q : BytePSScheduledQueue α) : Nat := q.sq.length

/-- `BytePSScheduledQueue::reportFinish`: `_finished++`. -/
def reportFinish (q : BytePSScheduledQueue α) : BytePSScheduledQueue α :=
  { q with finished := q.finished + 1 }

/-- A freshly constructed queue. -/
def emptyQueue : BytePSScheduledQueue α := {}

/-- `K` successive `addTask` calls, in list order. -/
def addAll (q : BytePSScheduledQueue α) (es : List α) :
    BytePSScheduledQueue α :=
  es.foldl addTask q

/-- `J` successive `getTask` calls, collecting the returned entries in
order; stops early if the queue empties. -/
def getMany : Nat → BytePSScheduledQueue α → List α × BytePSScheduledQueue α
  | 0, q => ([], q)
  | j + 1, q =>
    match getTask q with
    | .error _ => ([], q)
    | .ok (e, q') =>
      let p := getMany j q'
      (e :: p.1, p.2)

/-! ### Key-to-server encoding -/

/-- The per-key entry of `ps_kv_`: wire keys, lengths, and the fixed value
size (`PSKV` from the header; the three fields are exactly the ones
`EncodeDefaultKey` uses). -/
structure PSKV where
  keys : List Nat := []
  lens : List Nat := []
  size : Nat := 0
  deriving DecidableEq, Repr

/-- The `BPS_CHECK` failures `EncodeDefaultKey` can abort with. -/
inductive EncodeFailure where
  | sizeMismatch
  | noServers
  | keyOutOfRange
  deriving DecidableEq, Repr

/-- Lookup in the `ps_kv_` association list. -/
def kvLookup : List (Nat × PSKV) → Nat → Option PSKV
  | [], _ => none
  | (k, v) :: rest, key => if k = key then some v else kvLookup rest key

/-- Store under a key in the `ps_kv_` association list (update in place,
append when absent). -/
def kvSet : List (Nat × PSKV) → Nat → PSKV → List (Nat × PSKV)
  | [], key, v => [(key, v)]
  | (k, v') :: rest, key, v =>
    if k = key then (key, v) :: rest else (k, v') :: kvSet rest key v

/-- `BytePSGlobal::EncodeDefaultKey(key, len)`.  `krs` is the server key
range list obtained from `ps::Postoffice::Get()->GetServerKeyRanges()`
(an external collaborator), one `[begin, end)` pair per server.  An
existing entry (non-empty `keys`) is returned after the size check; a new
entry is assigned `server = (key * 9973) % num_servers`,
`ps_key = krs[server].begin() + key`, which `BPS_CHECK_LT` requires to be
below `krs[server].end()`. -/
def EncodeDefaultKey (kv : List (Nat × PSKV)) (krs : List (Nat × Nat))
    (key : Nat) (len : Nat) :
    Except EncodeFailure (PSKV × List (Nat × PSKV)) :=
  let pskv := (kvLookup kv key).getD {}
  if pskv.keys ≠ [] then
    if pskv.size = len then .ok (pskv, kv) else .error .sizeMismatch
  else
    let num_servers := krs.length
    if num_servers = 0 then .error .noServers
    else
      let server := (key * 9973) % num_servers
      let kr := krs.getD server (0, 0)
      let ps_key := kr.1 + key
      if ps_key < kr.2 then
        let pskv' : PSKV := { keys := [ps_key], lens := [len], size := len }
        .ok (pskv', kvSet kv key pskv')
      else .error .keyOutOfRange

/-! ### Partition-bound configuration (`Init`, line 102) -/

/-- The whitespace characters `atoi` (via `isspace`) skips. -/
def isSpaceChar (c : Char) : Bool :=
  c == ' ' || c == '\t' || c == '\n' || c == '\x0b' || c == '\x0c' || c == '\r'

/-- Decimal value of a digit run (accumulator form, as `atoi` computes). -/
def digitsToNat (cs : List Char) : Nat :=
  cs.foldl (fun acc c => 10 * acc + (c.toNat - '0'.toNat)) 0

/-- The sign-and-digits phase of C `atoi`, applied after whitespace
stripping: optional sign, then the longest leading digit run; no digits
yields `0`. -/
def atoiParse : List Char → Int
  | [] => 0
  | c :: rest =>
    if c = '-' then -(digitsToNat (rest.takeWhile Char.isDigit) : Int)
    else if c = '+' then (digitsToNat (rest.takeWhile Char.isDigit) : Int)
    else (digitsToNat ((c :: rest).takeWhile Char.isDigit) : Int)

/-- C `atoi`: skip leading whitespace, then parse sign and digit run. -/
def atoi (s : String) : Int :=
  atoiParse (s.data.dropWhile isSpaceChar)

/-- The value of `_partition_bound` after `Init` (line 102 of the source):
`if (getenv("BYTEPS_PARTITION_BOUND")) _partition_bound = atoi(...)`.
The `int` result of `atoi` is converted to `uint32_t`, i.e. reduced
modulo `2 ^ 32`; an absent variable keeps the static default `512000`. -/
def initPartitionBound (env : Option String) : Nat :=
  match env with
  | none => 512000
  | some s => ((atoi s) % (U32 : Int)).toNat

/-! ### Registration sequences (for the key-counter invariant) -/

/-- One registration request, as passed to `IsTensorInitialized`. -/
structure Reg where
  name : String
  size : Nat
  device : Int
  dtype : DataType
  deriving DecidableEq, Repr

/-- Run a sequence of registrations, collecting every issued partition key
in issue order.  A first registration contributes its new context's
`key_list`; a repeat registration contributes nothing; a failed
`BPS_CHECK` or a diverging loop aborts the process, ending the trace. -/
def runRegs : GlobalState → List Reg → GlobalState × List Nat
  | st, [] => (st, [])
  | st, r :: rest =>
    match IsTensorInitialized st r.name r.size r.device r.dtype with
    | .ok false st' =>
      let issued := ((ctxLookup st'.name_to_cxt r.name).getD {}).key_list
      let p := runRegs st' rest
      (p.1, issued ++ p.2)
    | .ok true st' => runRegs st' rest
    | _ => (st, [])

/-- A family of pairwise-distinct tensor names (length-coded). -/
def cexName (n : Nat) : String := String.mk (List.replicate n 'a')

/-- `n` one-byte `uint8` CPU registrations under distinct fresh names
`cexName a, cexName (a+1), …`: each issues exactly one partition key. -/
def mkRegs (a n : Nat) : List Reg :=
  (List.range n).map (fun i => ⟨cexName (a + i), 1, CPU_DEVICE_ID, .BYTEPS_UINT8⟩)

/-- A small state with a nonzero key counter and byte bound 2, used to
exercise a multi-chunk registration. -/
def wSt : GlobalState :=
  { name_to_cxt := [], next_key := 1, partition_bound := 2 }

/-- The state after first registering `"t"` with `size = 4`, 32-bit float,
CPU device, from the initial state: bound converted to `2048000` bytes,
one chunk, key `0`, counter advanced to `1`. -/
def cexSt1 : GlobalState :=
  { name_to_cxt := [("t", { key_list := [0] })]
    next_key := 1
    partition_bound := 2048000 }

/-! ## Helper lemmas -/

theorem U32_pos : 0 < U32 := by decide

theorem ctxLookup_append_self {l : List (String × BPSContext)} {name : String}
    (h : ctxLookup l name = none) (c : BPSContext) :
    ctxLookup (l ++ [(name, c)]) name = some c := by
  induction l with
  | nil => simp [ctxLookup]
  | cons p rest ih =>
    rw [ctxLookup] at h
    by_cases hp : p.1 = name
    · simp [hp] at h
    · simp only [hp, if_false] at h
      simpa [ctxLookup, hp] using ih h

theorem ctxLookup_append_ne {l : List (String × BPSContext)} {n name : String}
    (h : n ≠ name) (c : BPSContext) :
    ctxLookup (l ++ [(n, c)]) name = ctxLookup l name := by
  induction l with
  | nil => simp [ctxLookup, h]
  | cons p rest ih =>
    by_cases hp : p.1 = name <;> simp [ctxLookup, hp, ih]

theorem kvLookup_kvSet_self (m : List (Nat × PSKV)) (k : Nat) (v : PSKV) :
    kvLookup (kvSet m k v) k = some v := by
  induction m with
  | nil => simp [kvSet, kvLookup]
  | cons p rest ih =>
    by_cases hp : p.1 = k
    · simp [kvSet, hp, kvLookup]
    · simp [kvSet, hp, kvLookup, ih]

theorem keyRange_length (start n : Nat) : (keyRange start n).length = n := by
  simp [keyRange]

/-- Inversion of a successful first registration. -/
theorem isTensorInitialized_ok_false {st : GlobalState} {name : String}
    {size : Nat} {device : Int} {dtype : DataType} {st' : GlobalState}
    (h : IsTensorInitialized st name size device dtype = .ok false st') :
    size ≠ 0 ∧ ctxLookup st.name_to_cxt name = none ∧
    ∃ chunks cxt,
      partitionLoop (effBound st dtype) size size = some chunks ∧
      cxt.key_list = keyRange st.next_key chunks.length ∧
      st' = { name_to_cxt := st.name_to_cxt ++ [(name, cxt)]
              next_key := (st.next_key + chunks.length) % U32
              partition_bound := effBound st dtype } := by
  by_cases hs : size = 0
  · simp [IsTensorInitialized, hs] at h
  refine ⟨hs, ?_⟩
  rw [IsTensorInitialized, if_neg hs] at h
  cases hl : ctxLookup st.name_to_cxt name with
  | some c => simp only [hl] at h; exact absurd h (by simp)
  | none =>
    refine ⟨rfl, ?_⟩
    cases hp : partitionLoop (effBound st dtype) size size with
    | none => simp only [hl, hp] at h; exact absurd h (by simp)
    | some chunks =>
      simp only [hl, hp, RegResult.ok.injEq] at h
      by_cases hd : device = CPU_DEVICE_ID
      · refine ⟨chunks, { key_list := keyRange st.next_key chunks.length },
          rfl, rfl, ?_⟩
        rw [← h.2]
        simp [hd]
      · refine ⟨chunks, { key_list := keyRange st.next_key chunks.length,
                          cpubuff := true, buff_len := size },
          rfl, rfl, ?_⟩
        rw [← h.2]
        simp [hd]

/-- Inversion of a repeat registration. -/
theorem isTensorInitialized_ok_true {st : GlobalState} {name : String}
    {size : Nat} {device : Int} {dtype : DataType} {st' : GlobalState}
    (h : IsTensorInitialized st name size device dtype = .ok true st') :
    st' = st ∧ size ≠ 0 ∧ ∃ c, ctxLookup st.name_to_cxt name = some c := by
  by_cases hs : size = 0
  · simp [IsTensorInitialized, hs] at h
  rw [IsTensorInitialized, if_neg hs] at h
  cases hl : ctxLookup st.name_to_cxt name with
  | some c =>
    simp only [hl, RegResult.ok.injEq] at h
    exact ⟨h.2.symm, hs, c, rfl⟩
  | none =>
    cases hp : partitionLoop (effBound st dtype) size size with
    | none => simp only [hl, hp] at h; exact absurd h (by simp)
    | some chunks => simp only [hl, hp] at h; exact absurd h (by simp)

/-- `addTask` only ever appends. -/
theorem addAll_sq (es : List α) :
    ∀ q : BytePSScheduledQueue α, (addAll q es).sq = q.sq ++ es := by
  induction es with
  | nil => intro q; simp [addAll]
  | cons e rest ih =>
    intro q
    show (addAll (addTask q e) rest).sq = _
    rw [ih]
    simp [addTask]

/-- `getMany` under the non-emptiness precondition: it returns the `J`
head entries and drops them. -/
theorem getMany_spec (J : Nat) :
    ∀ q : BytePSScheduledQueue α, J ≤ q.sq.length →
    getMany J q = (q.sq.take J, { q with sq := q.sq.drop J }) := by
  induction J with
  | zero => intro q _; simp [getMany]
  | succ j ih =>
    intro q hJ
    cases hq : q.sq with
    | nil => rw [hq] at hJ; simp at hJ
    | cons e rest =>
      rw [hq] at hJ
      have hget : getTask q = .ok (e, { q with sq := rest }) := by
        simp [getTask, hq]
      have hih := ih { q with sq := rest } (Nat.le_of_succ_le_succ hJ)
      simp only [getMany, hget, hih]
      simp [hq]

/-! ## Claims -/

/-- C7: `getTask`/`peekTask` on an empty queue yield the defined
`EmptyQueueError`; on a non-empty queue `getTask` removes and returns the
head entry and `peekTask` returns the head without removing it. -/
theorem getTask_peekTask_total (q : BytePSScheduledQueue α) :
    (q.sq = [] →
      getTask q = .error .emptyQueue ∧ peekTask q = .error .emptyQueue) ∧
    (∀ e rest, q.sq = e :: rest →
      getTask q = .ok (e, { q with sq := rest }) ∧ peekTask q = .ok e) := by
  constructor
  · intro h
    exact ⟨by simp [getTask, h], by simp [peekTask, h]⟩
  · intro e rest h
    exact ⟨by simp [getTask, h], by simp [peekTask, h]⟩

theorem getTask_peekTask_total_witness :
    getTask (emptyQueue : BytePSScheduledQueue Nat) = .error .emptyQueue ∧
    peekTask (emptyQueue : BytePSScheduledQueue Nat) = .error .emptyQueue ∧
    getTask ({ sq := [5, 7] } : BytePSScheduledQueue Nat) =
      .ok (5, { sq := [7] }) ∧
    peekTask ({ sq := [5, 7] } : BytePSScheduledQueue Nat) = .ok 5 :=
  ⟨((getTask_peekTask_total emptyQueue).1 rfl).1,
   ((getTask_peekTask_total emptyQueue).1 rfl).2,
   ((getTask_peekTask_total { sq := [5, 7] }).2 5 [7] rfl).1,
   ((getTask_peekTask_total { sq := [5, 7] }).2 5 [7] rfl).2⟩

/-- C8: after `K` `addTask` calls on a fresh queue followed by
`J ≤ K` `getTask` calls, the entries returned are exactly the first `J`
added, in order, and `pendingSize` equals `K − J`. -/
theorem fifo_order (es : List α) (J : Nat) (hJ : J ≤ es.length) :
    (getMany J (addAll emptyQueue es)).1 = es.take J ∧
    pendingSize (getMany J (addAll emptyQueue es)).2 = es.length - J := by
  have hsq : (addAll (emptyQueue : BytePSScheduledQueue α) es).sq = es := by
    rw [addAll_sq]; rfl
  have := getMany_spec J (addAll emptyQueue es) (by rw [hsq]; exact hJ)
  rw [this, hsq]
  exact ⟨rfl, by simp [pendingSize]⟩

/-- Under a positive bound the partition loop terminates within
`remaining` iterations and yields chunks that cover `remaining` exactly,
each positive and within the bound, `⌈remaining / bound⌉` of them. -/
theorem partitionLoop_spec {bound : Nat} (hb : 0 < bound) :
    ∀ remaining fuel, remaining ≤ fuel →
    ∃ l, partitionLoop bound fuel remaining = some l ∧
      l.sum = remaining ∧ (∀ c ∈ l, 0 < c ∧ c ≤ bound) ∧
      l.length = (remaining + bound - 1) / bound := by
  intro remaining
  induction remaining using Nat.strong_induction_on with
  | _ remaining ih =>
    match remaining with
    | 0 =>
      intro fuel _
      refine ⟨[], ?_, rfl, by simp, ?_⟩
      · cases fuel <;> rfl
      · simp only [List.length_nil, Nat.zero_add]
        rw [Nat.div_eq_of_lt (show bound - 1 < bound by omega)]
    | r + 1 =>
      intro fuel hf
      match fuel with
      | 0 => omega
      | f + 1 =>
        have hcpos : 0 < chunkStep bound (r + 1) := by
          unfold chunkStep; split <;> omega
        have hcle : chunkStep bound (r + 1) ≤ bound := by
          unfold chunkStep; split <;> omega
        have hcler : chunkStep bound (r + 1) ≤ r + 1 := by
          unfold chunkStep; split <;> omega
        obtain ⟨l, hl, hsum, hbnd, hlen⟩ :=
          ih (r + 1 - chunkStep bound (r + 1)) (by omega) f (by omega)
        refine ⟨chunkStep bound (r + 1) :: l, ?_, ?_, ?_, ?_⟩
        · show (partitionLoop bound f (r + 1 - chunkStep bound (r + 1))).map
            (fun l => chunkStep bound (r + 1) :: l) = _
          rw [hl]
          rfl
        · rw [List.sum_cons, hsum]; omega
        · intro x hx
          rcases List.mem_cons.mp hx with h | h
          · subst h; exact ⟨hcpos, hcle⟩
          · exact hbnd x h
        · rw [List.length_cons, hlen]
          unfold chunkStep
          split
          · have h1 : r + 1 - bound + bound - 1 = r := by omega
            have h2 : r + 1 + bound - 1 = r + bound := by omega
            rw [h1, h2, Nat.add_div_right r hb]
          · have h1 : r + 1 - (r + 1) + bound - 1 = bound - 1 := by omega
            have h2 : r + 1 + bound - 1 = r + bound := by omega
            rw [h1, h2, Nat.add_div_right r hb,
              Nat.div_eq_of_lt (show bound - 1 < bound by omega),
              Nat.div_eq_of_lt (show r < bound by omega)]

/-- With a zero bound the partition loop makes no progress: no amount of
fuel reaches the end of a non-empty tensor. -/
theorem partitionLoop_zero_bound (fuel : Nat) :
    ∀ r, r ≠ 0 → partitionLoop 0 fuel r = none := by
  induction fuel with
  | zero =>
    intro r hr
    cases r with
    | zero => exact absurd rfl hr
    | succ n => rfl
  | succ f ih =>
    intro r hr
    cases r with
    | zero => exact absurd rfl hr
    | succ n =>
      show (partitionLoop 0 f (n + 1 - chunkStep 0 (n + 1))).map
        (fun l => chunkStep 0 (n + 1) :: l) = none
      have hc : chunkStep 0 (n + 1) = 0 := by unfold chunkStep; simp
      rw [hc, Nat.sub_zero, ih (n + 1) (Nat.succ_ne_zero n)]
      rfl

/-- C1: a first registration with byte size `S ≠ 0` and byte bound `B > 0`
partitions the tensor into chunks summing to exactly `S`, none exceeding
`B`, with `key_list` of length `⌈S / B⌉`. -/
theorem first_registration_partition (st : GlobalState) (name : String)
    (size : Nat) (device : Int) (dtype : DataType)
    (hs : size ≠ 0) (hfresh : ctxLookup st.name_to_cxt name = none)
    (hb : 0 < effBound st dtype) :
    ∃ st' chunks cxt,
      IsTensorInitialized st name size device dtype = .ok false st' ∧
      partitionLoop (effBound st dtype) size size = some chunks ∧
      ctxLookup st'.name_to_cxt name = some cxt ∧
      cxt.key_list.length = chunks.length ∧
      chunks.sum = size ∧ (∀ c ∈ chunks, c ≤ effBound st dtype) ∧
      chunks.length = (size + effBound st dtype - 1) / effBound st dtype := by
  obtain ⟨chunks, hp, hsum, hbnd, hlen⟩ := partitionLoop_spec hb size size le_rfl
  by_cases hd : device = CPU_DEVICE_ID
  · have hres : IsTensorInitialized st name size device dtype =
        RegResult.ok false
          ⟨st.name_to_cxt ++
             [(name, ⟨keyRange st.next_key chunks.length, false, 0⟩)],
           (st.next_key + chunks.length) % U32, effBound st dtype⟩ := by
      rw [IsTensorInitialized, if_neg hs]
      simp [hfresh, hp, hd]
    exact ⟨_, chunks, _, hres, hp, ctxLookup_append_self hfresh _,
      by simp [keyRange_length], hsum, fun c hc => (hbnd c hc).2, hlen⟩
  · have hres : IsTensorInitialized st name size device dtype =
        RegResult.ok false
          ⟨st.name_to_cxt ++
             [(name, ⟨keyRange st.next_key chunks.length, true, size⟩)],
           (st.next_key + chunks.length) % U32, effBound st dtype⟩ := by
      rw [IsTensorInitialized, if_neg hs]
      simp [hfresh, hp, hd]
    exact ⟨_, chunks, _, hres, hp, ctxLookup_append_self hfresh _,
      by simp [keyRange_length], hsum, fun c hc => (hbnd c hc).2, hlen⟩

theorem first_registration_partition_witness :
    ∃ st' chunks cxt,
      IsTensorInitialized wSt "w" 5 CPU_DEVICE_ID .BYTEPS_UINT8 =
        .ok false st' ∧
      partitionLoop (effBound wSt .BYTEPS_UINT8) 5 5 = some chunks ∧
      ctxLookup st'.name_to_cxt "w" = some cxt ∧
      cxt.key_list.length = chunks.length ∧
      chunks.sum = 5 ∧
      (∀ c ∈ chunks, c ≤ effBound wSt .BYTEPS_UINT8) ∧
      chunks.length =
        (5 + effBound wSt .BYTEPS_UINT8 - 1) / effBound wSt .BYTEPS_UINT8 :=
  first_registration_partition wSt "w" 5 CPU_DEVICE_ID .BYTEPS_UINT8
    (by decide) rfl (by decide)

/-- C9: for `size ≠ 0` the partition loop terminates exactly when the
bound is positive — with a positive bound `size` iterations of fuel
suffice, with a zero bound no amount of fuel does. -/
theorem partition_loop_terminates_iff_bound_pos (bound size : Nat)
    (hs : size ≠ 0) :
    (0 < bound → (partitionLoop bound size size).isSome = true) ∧
    (bound = 0 → ∀ fuel, partitionLoop bound fuel size = none) := by
  constructor
  · intro hb
    obtain ⟨l, hl, -, -, -⟩ := partitionLoop_spec hb size size le_rfl
    rw [hl]
    rfl
  · rintro rfl fuel
    exact partitionLoop_zero_bound fuel size hs

theorem partition_loop_terminates_iff_bound_pos_witness :
    (partitionLoop 2 3 3).isSome = true ∧ partitionLoop 0 7 3 = none :=
  ⟨(partition_loop_terminates_iff_bound_pos 2 3 (by decide)).1 (by decide),
   (partition_loop_terminates_iff_bound_pos 0 3 (by decide)).2 rfl 7⟩

/-- C5: re-registering the same name with the same size (and device and
dtype) returns `true` and leaves the whole global state — the registry
with its `key_list`s and buffer lengths, and the key counter — unchanged. -/
theorem reregistration_same_args_noop (st st' : GlobalState) (name : String)
    (size : Nat) (device : Int) (dtype : DataType)
    (h : IsTensorInitialized st name size device dtype = .ok false st') :
    IsTensorInitialized st' name size device dtype = .ok true st' := by
  obtain ⟨hs, hfresh, chunks, cxt, hp, hkl, hst⟩ := isTensorInitialized_ok_false h
  subst hst
  rw [IsTensorInitialized, if_neg hs]
  simp [ctxLookup_append_self hfresh cxt]

theorem reregistration_same_args_noop_witness :
    IsTensorInitialized cexSt1 "t" 4 CPU_DEVICE_ID .BYTEPS_FLOAT32 =
      .ok true cexSt1 :=
  reregistration_same_args_noop initState cexSt1 "t" 4 CPU_DEVICE_ID
    .BYTEPS_FLOAT32 (by decide)

/-- C4 (amended): re-registering an already-registered name returns `true`
and leaves the state unchanged for ANY nonzero size (and any device and
dtype) — the source performs no size-mismatch check on re-registration. -/
theorem reregistration_ignores_size (st st' : GlobalState) (name : String)
    (size size2 : Nat) (device device2 : Int) (dtype dtype2 : DataType)
    (h : IsTensorInitialized st name size device dtype = .ok false st')
    (hs2 : size2 ≠ 0) :
    IsTensorInitialized st' name size2 device2 dtype2 = .ok true st' := by
  obtain ⟨hs, hfresh, chunks, cxt, hp, hkl, hst⟩ := isTensorInitialized_ok_false h
  subst hst
  rw [IsTensorInitialized, if_neg hs2]
  simp [ctxLookup_append_self hfresh cxt]

/-- C4 (counterexample): registering `"t"` with size 4 and then calling
again with size 8 returns `true` normally — it does not abort with the
claimed fatal `InvariantViolation`. -/
theorem reregistration_size_mismatch_counterexample :
    IsTensorInitialized initState "t" 4 CPU_DEVICE_ID .BYTEPS_FLOAT32 =
      .ok false cexSt1 ∧
    IsTensorInitialized cexSt1 "t" 8 CPU_DEVICE_ID .BYTEPS_FLOAT32 =
      .ok true cexSt1 ∧
    IsTensorInitialized cexSt1 "t" 8 CPU_DEVICE_ID .BYTEPS_FLOAT32 ≠
      RegResult.fatal := by
  refine ⟨?_, ?_, ?_⟩ <;> decide

theorem reregistration_ignores_size_witness :
    IsTensorInitialized cexSt1 "t" 12 CPU_DEVICE_ID .BYTEPS_FLOAT32 =
      .ok true cexSt1 :=
  reregistration_ignores_size initState cexSt1 "t" 4 12 CPU_DEVICE_ID
    CPU_DEVICE_ID .BYTEPS_FLOAT32 .BYTEPS_FLOAT32 (by decide) (by decide)

/-- C10: `GetContextFromName` on a never-registered name silently inserts
a fresh empty context (empty `key_list`, no staging buffer), raising
`GetTensorCount` by one and making a later `IsTensorInitialized` for that
name report `true` although the tensor was never partitioned. -/
theorem getContextFromName_silent_insert (st : GlobalState) (name : String)
    (hfresh : ctxLookup st.name_to_cxt name = none) :
    (GetContextFromName st name).1.key_list = [] ∧
    (GetContextFromName st name).1.cpubuff = false ∧
    GetTensorCount (GetContextFromName st name).2 = GetTensorCount st + 1 ∧
    ∀ size device dtype, size ≠ 0 →
      IsTensorInitialized (GetContextFromName st name).2 name size device
        dtype = .ok true (GetContextFromName st name).2 := by
  refine ⟨?_, ?_, ?_, ?_⟩
  · simp [GetContextFromName, hfresh]
  · simp [GetContextFromName, hfresh]
  · simp [GetContextFromName, hfresh, GetTensorCount]
  · intro size device dtype hs
    rw [IsTensorInitialized, if_neg hs]
    simp [GetContextFromName, hfresh, ctxLookup_append_self hfresh]

theorem getContextFromName_silent_insert_witness :
    GetTensorCount (GetContextFromName initState "x").2 =
      GetTensorCount initState + 1 ∧
    IsTensorInitialized (GetContextFromName initState "x").2 "x" 4
      CPU_DEVICE_ID .BYTEPS_UINT8 = .ok true (GetContextFromName initState "x").2 :=
  ⟨(getContextFromName_silent_insert initState "x" rfl).2.2.1,
   (getContextFromName_silent_insert initState "x" rfl).2.2.2 4
     CPU_DEVICE_ID .BYTEPS_UINT8 (by decide)⟩

theorem fifo_order_witness :
    (getMany 2 (addAll emptyQueue [10, 20, 30])).1 = [10, 20] ∧
    pendingSize (getMany 2 (addAll (emptyQueue : BytePSScheduledQueue Nat)
      [10, 20, 30])).2 = 1 :=
  fifo_order [10, 20, 30] 2 (by decide)

/-- C3: on first encoding of a key (no stored entry), a successful
`EncodeDefaultKey` assigns `server_id = (key * 9973) % num_servers`, the
wire key `krs[server].begin() + key`, which lies strictly below
`krs[server].end()`; and a repeated call with the same key returns the
same assignment with the table unchanged. -/
theorem encodeDefaultKey_deterministic (kv : List (Nat × PSKV))
    (krs : List (Nat × Nat)) (key len : Nat) (pskv : PSKV)
    (kv' : List (Nat × PSKV))
    (hfresh : ((kvLookup kv key).getD {}).keys = [])
    (hok : EncodeDefaultKey kv krs key len = .ok (pskv, kv')) :
    0 < krs.length ∧
    pskv.keys = [(krs.getD (key * 9973 % krs.length) (0, 0)).1 + key] ∧
    (krs.getD (key * 9973 % krs.length) (0, 0)).1 + key <
      (krs.getD (key * 9973 % krs.length) (0, 0)).2 ∧
    EncodeDefaultKey kv' krs key len = .ok (pskv, kv') := by
  simp only [EncodeDefaultKey] at hok
  rw [hfresh] at hok
  have hniln : ¬ (([] : List Nat) ≠ []) := fun h => h rfl
  rw [if_neg hniln] at hok
  by_cases hns : krs.length = 0
  · rw [if_pos hns] at hok
    exact absurd hok (by simp)
  · rw [if_neg hns] at hok
    split at hok
    · rename_i hlt
      simp only [Except.ok.injEq, Prod.mk.injEq] at hok
      obtain ⟨h1, h2⟩ := hok
      subst h1
      subst h2
      refine ⟨Nat.pos_of_ne_zero hns, rfl, hlt, ?_⟩
      simp only [EncodeDefaultKey, kvLookup_kvSet_self]
      simp
    · exact absurd hok (by simp)

theorem encodeDefaultKey_deterministic_witness :
    EncodeDefaultKey [(3, ⟨[103], [10], 10⟩)] [(0, 100), (100, 200)] 3 10 =
      .ok (⟨[103], [10], 10⟩, [(3, ⟨[103], [10], 10⟩)]) :=
  (encodeDefaultKey_deterministic [] [(0, 100), (100, 200)] 3 10
    ⟨[103], [10], 10⟩ [(3, ⟨[103], [10], 10⟩)] rfl rfl).2.2.2

/-- A decimal digit is not one of the whitespace characters `atoi` skips. -/
theorem isDigit_not_space {c : Char} (h : c.isDigit = true) :
    isSpaceChar c = false := by
  have h1 : c ≠ ' ' := fun e => by rw [e] at h; exact absurd h (by decide)
  have h2 : c ≠ '\t' := fun e => by rw [e] at h; exact absurd h (by decide)
  have h3 : c ≠ '\n' := fun e => by rw [e] at h; exact absurd h (by decide)
  have h4 : c ≠ '\x0b' := fun e => by rw [e] at h; exact absurd h (by decide)
  have h5 : c ≠ '\x0c' := fun e => by rw [e] at h; exact absurd h (by decide)
  have h6 : c ≠ '\r' := fun e => by rw [e] at h; exact absurd h (by decide)
  simp [isSpaceChar, h1, h2, h3, h4, h5, h6]

theorem isDigit_ne_minus {c : Char} (h : c.isDigit = true) : c ≠ '-' :=
  fun e => by rw [e] at h; exact absurd h (by decide)

theorem isDigit_ne_plus {c : Char} (h : c.isDigit = true) : c ≠ '+' :=
  fun e => by rw [e] at h; exact absurd h (by decide)

/-- C6 (amended): an absent override keeps the default `512000`; a present
override always sets the bound to `atoi`'s result converted to `uint32_t`
— in particular any all-digit value below `2 ^ 32` yields itself, while an
invalid value yields `atoi`'s result (`0` for a non-numeric string), NOT
the default. -/
theorem init_partition_bound_spec (s : String)
    (hne : s.data ≠ []) (hdig : ∀ c ∈ s.data, c.isDigit = true)
    (hlt : atoi s < (U32 : Int)) :
    initPartitionBound none = 512000 ∧
    initPartitionBound (some s) = (atoi s).toNat := by
  have hdrop : s.data.dropWhile isSpaceChar = s.data := by
    cases hd : s.data with
    | nil => exact absurd hd hne
    | cons c rest =>
      rw [List.dropWhile_cons,
        isDigit_not_space (hdig c (hd ▸ List.mem_cons_self c rest))]
      simp
  have hnn : 0 ≤ atoi s := by
    rw [atoi, hdrop]
    cases hd : s.data with
    | nil => exact absurd hd hne
    | cons c rest =>
      have hc := hdig c (hd ▸ List.mem_cons_self c rest)
      rw [atoiParse, if_neg (isDigit_ne_minus hc), if_neg (isDigit_ne_plus hc)]
      exact Int.natCast_nonneg _
  refine ⟨rfl, ?_⟩
  show ((atoi s) % (U32 : Int)).toNat = (atoi s).toNat
  rw [Int.emod_eq_of_lt hnn hlt]

theorem init_partition_bound_spec_witness :
    initPartitionBound none = 512000 ∧
    initPartitionBound (some "1000") = (atoi "1000").toNat :=
  init_partition_bound_spec "1000" (by decide) (by decide) (by decide)

/-- C6 (counterexample): with the override present but invalid (`"abc"`),
`atoi` returns `0` and the bound becomes `0` — not the default `512000`
that the claim asserts. -/
theorem init_partition_bound_counterexample :
    initPartitionBound (some "abc") = 0 ∧
    initPartitionBound (some "abc") ≠ 512000 := by
  refine ⟨?_, ?_⟩ <;> decide

/-- The issued-key trace of any registration sequence starting at counter
value `k < 2 ^ 32` is the contiguous run `k, k+1, …` reduced modulo
`2 ^ 32`, and the counter ends at `(k + total) % 2 ^ 32`. -/
theorem runRegs_trace_shape (regs : List Reg) :
    ∀ st : GlobalState, st.next_key < U32 →
    ∃ m, (runRegs st regs).2 =
        (List.range m).map (fun i => (st.next_key + i) % U32) ∧
      (runRegs st regs).1.next_key = (st.next_key + m) % U32 := by
  induction regs with
  | nil =>
    intro st h
    exact ⟨0, by simp [runRegs], by simp [runRegs, Nat.mod_eq_of_lt h]⟩
  | cons r rest ih =>
    intro st h
    cases hreg : IsTensorInitialized st r.name r.size r.device r.dtype with
    | fatal =>
      refine ⟨0, ?_, ?_⟩ <;> simp [runRegs, hreg, Nat.mod_eq_of_lt h]
    | diverge =>
      refine ⟨0, ?_, ?_⟩ <;> simp [runRegs, hreg, Nat.mod_eq_of_lt h]
    | ok already st' =>
      cases already with
      | true =>
        obtain ⟨hst, -, -⟩ := isTensorInitialized_ok_true hreg
        have hout : runRegs st (r :: rest) = runRegs st rest := by
          simp only [runRegs, hreg, hst]
        rw [hout]
        exact ih st h
      | false =>
        obtain ⟨hs, hfresh, chunks, cxt, hp, hkl, hst⟩ :=
          isTensorInitialized_ok_false hreg
        have hlk : ctxLookup st'.name_to_cxt r.name = some cxt := by
          rw [hst]
          exact ctxLookup_append_self hfresh cxt
        have hnk' : st'.next_key = (st.next_key + chunks.length) % U32 := by
          rw [hst]
        have hlt' : st'.next_key < U32 := by
          rw [hnk']
          exact Nat.mod_lt _ U32_pos
        obtain ⟨m2, htr2, hnk2⟩ := ih st' hlt'
        refine ⟨chunks.length + m2, ?_, ?_⟩
        · have hfirst : ((ctxLookup st'.name_to_cxt r.name).getD {}).key_list
              = keyRange st.next_key chunks.length := by
            rw [hlk, Option.getD_some, hkl]
          have hsec : (runRegs st' rest).2 = (List.range m2).map
              (fun i => (st.next_key + (chunks.length + i)) % U32) := by
            rw [htr2, hnk']
            refine List.map_congr_left ?_
            intro i _
            rw [Nat.mod_add_mod, Nat.add_assoc]
          have hout : (runRegs st (r :: rest)).2 =
              ((ctxLookup st'.name_to_cxt r.name).getD {}).key_list ++
                (runRegs st' rest).2 := by
            simp only [runRegs, hreg]
          rw [hout, hfirst, hsec, List.range_add, List.map_append,
            List.map_map]
          simp [keyRange, Function.comp]
        · have hout1 : (runRegs st (r :: rest)).1 = (runRegs st' rest).1 := by
            simp only [runRegs, hreg]
          rw [hout1, hnk2, hnk', Nat.mod_add_mod, Nat.add_assoc]

/-- C2 (amended): across any sequence of registrations from the initial
state, as long as at most `2 ^ 32` keys are issued in total (the 32-bit
counter has not wrapped), every issued key is distinct and keys issued
later are numerically greater. -/
theorem issued_keys_increasing (regs : List Reg)
    (hlen : (runRegs initState regs).2.length ≤ U32) :
    List.Pairwise (· < ·) (runRegs initState regs).2 ∧
    (runRegs initState regs).2.Nodup := by
  obtain ⟨m, htr, -⟩ := runRegs_trace_shape regs initState (by decide)
  have hm : m ≤ U32 := by
    rw [htr] at hlen
    simpa using hlen
  have hid : (runRegs initState regs).2 = List.range m := by
    rw [htr]
    have hpt : ∀ i ∈ List.range m,
        (initState.next_key + i) % U32 = id i := by
      intro i hi
      have h1 : i < U32 := lt_of_lt_of_le (List.mem_range.mp hi) hm
      show (initState.next_key + i) % U32 = i
      have h2 : initState.next_key = 0 := rfl
      rw [h2, Nat.zero_add, Nat.mod_eq_of_lt h1]
    rw [List.map_congr_left hpt, List.map_id]
  rw [hid]
  exact ⟨List.pairwise_lt_range m, List.nodup_range m⟩

theorem issued_keys_increasing_witness :
    List.Pairwise (· < ·) (runRegs initState (mkRegs 0 2)).2 ∧
    (runRegs initState (mkRegs 0 2)).2.Nodup :=
  issued_keys_increasing (mkRegs 0 2) (by decide)

theorem cexName_inj {m n : Nat} (h : cexName m = cexName n) : m = n := by
  have h2 : List.replicate m 'a' = List.replicate n 'a' :=
    congrArg String.data h
  have h3 := congrArg List.length h2
  simpa using h3

theorem mkRegs_succ (a n : Nat) :
    mkRegs a (n + 1) =
      ⟨cexName a, 1, CPU_DEVICE_ID, .BYTEPS_UINT8⟩ :: mkRegs (a + 1) n := by
  rw [mkRegs, List.range_succ_eq_map, List.map_cons, List.map_map,
    Nat.add_zero]
  refine congrArg (List.cons _) ?_
  refine List.map_congr_left ?_
  intro i _
  have hia : a + Nat.succ i = a + 1 + i := by omega
  simp [Function.comp, hia]

/-- Each registration in `mkRegs` is fresh and issues exactly one key, so
the trace length equals the number of registrations. -/
theorem runRegs_mkRegs_length (n : Nat) :
    ∀ a (st : GlobalState), st.partition_bound = 512000 →
    (∀ i, a ≤ i → ctxLookup st.name_to_cxt (cexName i) = none) →
    (runRegs st (mkRegs a n)).2.length = n := by
  induction n with
  | zero =>
    intro a st _ _
    simp [mkRegs, runRegs]
  | succ n ih =>
    intro a st hpb hfr
    rw [mkRegs_succ]
    have hfa := hfr a le_rfl
    have hb : effBound st .BYTEPS_UINT8 = 512000 := by
      rw [effBound, hpb]
      split
      · decide
      · rfl
    have hp1 : partitionLoop (effBound st .BYTEPS_UINT8) 1 1 = some [1] := by
      rw [hb]
      rfl
    have hreg : IsTensorInitialized st (cexName a) 1 CPU_DEVICE_ID
        .BYTEPS_UINT8 = .ok false
          ⟨st.name_to_cxt ++
             [(cexName a, ⟨keyRange st.next_key 1, false, 0⟩)],
           (st.next_key + 1) % U32, effBound st .BYTEPS_UINT8⟩ := by
      rw [IsTensorInitialized, if_neg one_ne_zero]
      simp [hfa, hp1]
    have hlk : ctxLookup (st.name_to_cxt ++
        [(cexName a, ⟨keyRange st.next_key 1, false, 0⟩)]) (cexName a) =
        some ⟨keyRange st.next_key 1, false, 0⟩ :=
      ctxLookup_append_self hfa _
    have hfr2 : ∀ i, a + 1 ≤ i →
        ctxLookup (st.name_to_cxt ++
          [(cexName a, ⟨keyRange st.next_key 1, false, 0⟩)]) (cexName i) =
          none := by
      intro i hi
      rw [ctxLookup_append_ne (fun e => absurd (cexName_inj e) (by omega))]
      exact hfr i (by omega)
    have hih := ih (a + 1)
      ⟨st.name_to_cxt ++ [(cexName a, ⟨keyRange st.next_key 1, false, 0⟩)],
       (st.next_key + 1) % U32, effBound st .BYTEPS_UINT8⟩ hb hfr2
    simp only [runRegs, hreg, hlk, Option.getD_some, List.length_append,
      keyRange_length]
    omega

/-- C2 (counterexample): after `2 ^ 32 + 1` single-key registrations the
32-bit key counter has wrapped, so the issued keys are neither pairwise
increasing nor distinct — key `0` is issued twice. -/
theorem issued_keys_wrap_counterexample :
    ¬ (List.Pairwise (· < ·) (runRegs initState (mkRegs 0 (U32 + 1))).2 ∧
       (runRegs initState (mkRegs 0 (U32 + 1))).2.Nodup) := by
  intro hcl
  obtain ⟨m, htr, -⟩ :=
    runRegs_trace_shape (mkRegs 0 (U32 + 1)) initState (by decide)
  have hlen : (runRegs initState (mkRegs 0 (U32 + 1))).2.length = U32 + 1 :=
    runRegs_mkRegs_length (U32 + 1) 0 initState rfl (fun i _ => rfl)
  have hm : m = U32 + 1 := by
    rw [htr] at hlen
    simpa using hlen
  subst hm
  rw [htr] at hcl
  have hpw := hcl.1
  rw [List.pairwise_iff_getElem] at hpw
  have hlt := hpw 0 U32 (by simp) (by simp)
    (by decide)
  simp only [List.getElem_map, List.getElem_range] at hlt
  have h1 : (initState.next_key + 0) % U32 = 0 := by decide
  have h2 : (initState.next_key + U32) % U32 = 0 := by
    show (0 + U32) % U32 = 0
    simp
  rw [h1, h2] at hlt
  exact absurd hlt (lt_irrefl 0)

end BytePS
